import Mathlib

/-!
Shallow embedding of the IPFS pinning orchestration and status-reconciliation
engine of the DAO dapp (apps/dao-dapp/src/services/ipfs.ts,
apps/dao-dapp/src/services/ipfs/pinning.ts, apps/dao-dapp/src/utils/helia-cid-search.ts,
apps/dao-dapp/src/utils/indexeddb-check.ts).

Effectful JavaScript is embedded as pure Lean functions over explicit
environments: every network call (Pinata SDK call, fetch to the Kubo HTTP API,
Helia operation, IndexedDB read) is represented by an environment field giving
that call's outcome.  A JavaScript function that can throw is embedded as a
function into `Except String` (the string is the thrown error's message);
caught exceptions are matched on the `Except.error` branch exactly where the
source has a `catch`.  JavaScript truthiness on optional string/number fields
is modelled explicitly (`jsTruthyS`, `jsOrS`, `jsOrN`): `none` stands for
`undefined`/`null` and `some ""` / `some 0` for the falsy empty string / zero.
-/

namespace DaoIpfs

/-- Truthiness of an optional JS string: `undefined`/`null` and `""` are falsy. -/
def jsTruthyS : Option String → Bool
  | none => false
  | some s => s ≠ ""

/-- JS `a || b` on optional strings: the first operand if truthy, else the second. -/
def jsOrS (a b : Option String) : Option String :=
  if jsTruthyS a then a else b

/-- JS `a || b` on optional numbers: `undefined` and `0` are falsy. -/
def jsOrN (a b : Option Nat) : Option Nat :=
  match a with
  | some n => if n ≠ 0 then a else b
  | none => b

/-- JS `s.toLowerCase()`, written over the character list so that concrete
instances evaluate. -/
def toLowerStr (s : String) : String :=
  String.mk (s.toList.map Char.toLower)

/-- JS `s.substring(0, n)` (also `String.take`), written over the character
list so that concrete instances evaluate. -/
def takeStr (s : String) (n : Nat) : String :=
  String.mk (s.toList.take n)

/-- The three pinning providers of `PinningResult.provider` in pinning.ts
('pinata' | 'local-node' | 'helia-local'). -/
inductive Provider where
  | pinata
  | localNode
  | heliaLocal
deriving DecidableEq, Repr

/-- `PinningResult` from pinning.ts: outcome of one provider's attempt. -/
structure PinningResult where
  success : Bool
  provider : Provider
  error : Option String
deriving DecidableEq, Repr

/-- `PinningStatus` from pinning.ts: one boolean per provider. -/
structure PinningStatus where
  pinata : Bool
  localNode : Bool
  heliaLocal : Bool
deriving DecidableEq, Repr

/-- One file record inside a Pinata `files.public.list().cid(..)` response;
only the `cid` field is consulted (`file?.cid`), which may be absent. -/
structure PinFile where
  cid : Option String
deriving DecidableEq, Repr

/-- A Pinata list response: `response?.files || response?.items || []`.
Either field may be absent (`none`); a present empty array is truthy in JS,
which `Option` captures. -/
structure ListResp where
  files : Option (List PinFile)
  items : Option (List PinFile)
deriving DecidableEq, Repr

/-- `hasPinnedCid(response, cid)` from pinning.ts: the `files` field if
present, else `items`, else `[]`, and then `files.some(file => file?.cid === cid)`. -/
def hasPinnedCid (response : ListResp) (cid : String) : Bool :=
  let files := match response.files with
    | some fs => fs
    | none => response.items.getD []
  files.any (fun file => file.cid == some cid)

/-- Recursion core of `waitForPinataPin`: `i` is the index of the next
status/listing query (`pinata.files.public.list().cid(cid)`), drawn from the
environment's query stream `query`; the second argument counts the remaining
attempts.  A query that throws is caught (`console.warn`) and the loop
continues; the fixed inter-attempt sleep has no effect on the value. -/
def waitForPinataPinGo (query : Nat → Except String ListResp) (cid : String) :
    Nat → Nat → Bool
  | _, 0 => false
  | i, n + 1 =>
    match query i with
    | Except.ok files =>
        if hasPinnedCid files cid then true
        else waitForPinataPinGo query cid (i + 1) n
    | Except.error _ => waitForPinataPinGo query cid (i + 1) n

/-- `waitForPinataPin(pinata, cid, attempts, delayMs)` from pinning.ts,
with the Pinata SDK handle replaced by the stream `query` of the outcomes of
its successive `files.public.list().cid(cid)` calls.  `delayMs` is the fixed
sleep between attempts; it is passed to `sleep` only and cannot influence the
result. -/
def waitForPinataPin (query : Nat → Except String ListResp) (cid : String)
    (attempts : Nat) (delayMs : Nat) : Bool :=
  let _ := delayMs
  waitForPinataPinGo query cid 0 attempts

/-- The optional `content` argument of `pinToPinata`: a JS string or a byte
array (`Uint8Array` modelled as a list of byte values). -/
inductive ContentArg where
  | str (s : String)
  | bytes (b : List Nat)
deriving DecidableEq, Repr

/-- Environment of one `pinToPinata` call: the configured JWT
(`import.meta.env.VITE_PINATA_JWT`, `none` = unset, `some ""` falsy), the
outcome of the `pinata.upload.public.cid(cid)` submission, the stream of
outcomes of the `pinata.files.public.list().cid(cid)` status queries (indexed
by a global call counter: the first confirmation loop consumes indices 0..4,
the post-upload loop 5..10), and the outcome of the fallback
`pinata.upload.public.file(..)` (returning the CID Pinata assigned). -/
structure PinataEnv where
  jwt : Option String
  uploadCidOutcome : Except String Unit
  listQuery : Nat → Except String ListResp
  uploadFileOutcome : Except String String

/-- `pinToPinata(cid, content?)` from pinning.ts.  Every thrown error is
caught by the enclosing `try` and reported as `success:false` with the
error's message.  The byte conversion of `content` and the `File`
construction feed only the `pinata.upload.public.file` call, whose outcome
(the CID Pinata assigned, or a thrown error) the environment provides. -/
def pinToPinata (env : PinataEnv) (cid : String) (content : Option ContentArg) :
    PinningResult :=
  if ¬ jsTruthyS env.jwt then
    ⟨false, Provider.pinata,
      some "Pinata JWT not configured. Set VITE_PINATA_JWT in .env.local"⟩
  else
    match env.uploadCidOutcome with
    | Except.error e => ⟨false, Provider.pinata, some e⟩
    | Except.ok _ =>
      if waitForPinataPin env.listQuery cid 5 1000 then
        ⟨true, Provider.pinata, none⟩
      else
        match content with
        | none =>
          ⟨false, Provider.pinata,
            some "Pinata did not confirm the pin. Content may be unreachable from the network."⟩
        | some _c =>
          match env.uploadFileOutcome with
          | Except.error e => ⟨false, Provider.pinata, some e⟩
          | Except.ok uploadedCid =>
            if uploadedCid ≠ cid then
              ⟨false, Provider.pinata,
                some ("Pinata returned different CID (" ++ uploadedCid ++
                  ") while uploading content")⟩
            else if waitForPinataPin (fun i => env.listQuery (5 + i)) cid 6 1200 then
              ⟨true, Provider.pinata, none⟩
            else
              ⟨false, Provider.pinata,
                some "Pinata did not confirm the pin. Content may be unreachable from the network."⟩

/-- Outcome of the `fetch` to Kubo's `pin/add` endpoint in `pinToLocalNode`:
a `TypeError` mentioning fetch (node unreachable), any other thrown error, a
non-ok HTTP response (status and body text), or an ok response whose JSON
body may or may not carry a `Pins` array. -/
inductive KuboAddRes where
  | fetchTypeError (msg : String)
  | threw (msg : String)
  | notOk (status : Nat) (body : String)
  | ok (pins : Option (List String))
deriving DecidableEq, Repr

/-- Environment of `pinToLocalNode`: the single `fetch` outcome. -/
structure KuboEnv where
  pinAdd : KuboAddRes

/-- `pinToLocalNode(cid)` from pinning.ts. -/
def pinToLocalNode (env : KuboEnv) (cid : String) : PinningResult :=
  match env.pinAdd with
  | KuboAddRes.fetchTypeError _ =>
    ⟨false, Provider.localNode,
      some "Local IPFS node not available. Make sure Kubo is running."⟩
  | KuboAddRes.threw e => ⟨false, Provider.localNode, some e⟩
  | KuboAddRes.notOk status body =>
    ⟨false, Provider.localNode,
      some ("Local node pinning failed: " ++ toString status ++ " " ++ body)⟩
  | KuboAddRes.ok pins =>
    match pins with
    | some ps =>
      if ps.contains cid then ⟨true, Provider.localNode, none⟩
      else ⟨false, Provider.localNode, some "Unexpected response from local node"⟩
    | none => ⟨false, Provider.localNode, some "Unexpected response from local node"⟩

/-- Environment of `pinToHeliaLocal`: the outcome of `CID.parse(cid)` (which
throws on a malformed identifier) and of `helia.pins.add(cidObj)`. -/
structure HeliaPinEnv where
  parseCid : String → Except String Unit
  pinAdd : Except String Unit

/-- `pinToHeliaLocal(helia, cid)` from pinning.ts. -/
def pinToHeliaLocal (env : HeliaPinEnv) (cid : String) : PinningResult :=
  match env.parseCid cid with
  | Except.error e => ⟨false, Provider.heliaLocal, some e⟩
  | Except.ok _ =>
    match env.pinAdd with
    | Except.error e => ⟨false, Provider.heliaLocal, some e⟩
    | Except.ok _ => ⟨true, Provider.heliaLocal, none⟩

/-- `pinToAllServices(helia, cid, content?)` from pinning.ts: awaits each
provider in turn and pushes one result per provider regardless of individual
failures. -/
def pinToAllServices (penv : PinataEnv) (kenv : KuboEnv) (henv : HeliaPinEnv)
    (cid : String) (content : Option ContentArg) : List PinningResult :=
  [pinToPinata penv cid content, pinToLocalNode kenv cid, pinToHeliaLocal henv cid]

/-- Outcome of the `fetch` to Kubo's `pin/ls` endpoint in
`checkPinningStatus`: thrown (caught and ignored), non-ok (silently leaves
`localNode` false), or ok with a JSON body whose `Keys` object may be absent;
when present it is modelled by the list of CID keys it holds. -/
inductive KuboLsRes where
  | threw (msg : String)
  | notOk (status : Nat)
  | ok (keys : Option (List String))
deriving DecidableEq, Repr

/-- Environment of one `checkPinningStatus` call: outcome of `CID.parse(cid)`
(evaluated before any `try` block), of `helia.pins.isPinned`, the configured
JWT, the outcome of the Pinata `files.public.list().cid(cid)` check, and the
Kubo `pin/ls` outcome. -/
structure StatusEnv where
  parseCid : String → Except String Unit
  heliaIsPinned : Except String Bool
  jwt : Option String
  pinataList : Except String ListResp
  kuboPinLs : KuboLsRes

/-- The `heliaLocal` component computed by `checkPinningStatus`: the
`isPinned` answer, or `false` when the check throws (caught, logged). -/
def heliaPinVal (r : Except String Bool) : Bool :=
  match r with
  | Except.ok b => b
  | Except.error _ => false

/-- The `pinata` component computed by `checkPinningStatus`: `false` when no
SDK is configured, `hasPinnedCid` on the list response otherwise, `false`
when the check throws (caught, set explicitly). -/
def pinataPinVal (jwt : Option String) (r : Except String ListResp) (cid : String) : Bool :=
  if jsTruthyS jwt then
    match r with
    | Except.ok files => hasPinnedCid files cid
    | Except.error _ => false
  else false

/-- The `localNode` component computed by `checkPinningStatus`:
`result.Keys && result.Keys[cid] !== undefined` on an ok response, `false`
otherwise (non-ok response or unreachable node). -/
def kuboPinVal (r : KuboLsRes) (cid : String) : Bool :=
  match r with
  | KuboLsRes.ok (some ks) => ks.contains cid
  | _ => false

/-- `checkPinningStatus(helia, cid)` from pinning.ts.  `CID.parse(cid)` runs
before the per-provider `try` blocks, so its exception propagates to the
caller (`Except.error`); each provider check is individually guarded and a
failing provider contributes `false` for itself. -/
def checkPinningStatus (env : StatusEnv) (cid : String) : Except String PinningStatus :=
  match env.parseCid cid with
  | Except.error e => Except.error e
  | Except.ok _ =>
    let heliaLocal := match env.heliaIsPinned with
      | Except.ok b => b
      | Except.error _ => false
    let pinata := if jsTruthyS env.jwt then
        match env.pinataList with
        | Except.ok files => hasPinnedCid files cid
        | Except.error _ => false
      else false
    let localNode := match env.kuboPinLs with
      | KuboLsRes.ok (some ks) => ks.contains cid
      | _ => false
    Except.ok ⟨pinata, localNode, heliaLocal⟩

/-- Outcome of the `DELETE pinning/unpin/cid` fetch in `unpinFromPinata`:
thrown, non-ok (with HTTP status, status text, and the parsed error body's
optional `error.message` and `message` fields; a body that fails to parse
yields both fields absent), or ok. -/
inductive DeleteRes where
  | threw (msg : String)
  | notOk (status : Nat) (statusText : String) (errMsg : Option String) (msg : Option String)
  | ok
deriving DecidableEq, Repr

/-- Environment of the Pinata unpin operations: the configured JWT and the
per-identifier outcome of the DELETE request. -/
structure UnpinPinataEnv where
  jwt : Option String
  deleteOutcome : String → DeleteRes

/-- The error message thrown for a non-ok DELETE response:
`errorData.error?.message || errorData.message || "HTTP status: statusText"`. -/
def deleteErrMsg (status : Nat) (statusText : String)
    (errMsg msg : Option String) : String :=
  if jsTruthyS errMsg then errMsg.getD ""
  else if jsTruthyS msg then msg.getD ""
  else "HTTP " ++ toString status ++ ": " ++ statusText

/-- `unpinFromPinata(cid)` from pinning.ts: success exactly on an ok DELETE
response; every non-ok response (including not-found) is thrown and caught
into `success:false`. -/
def unpinFromPinata (env : UnpinPinataEnv) (cid : String) : PinningResult :=
  if ¬ jsTruthyS env.jwt then
    ⟨false, Provider.pinata,
      some "Pinata JWT not configured. Set VITE_PINATA_JWT in .env.local"⟩
  else
    match env.deleteOutcome cid with
    | DeleteRes.threw e => ⟨false, Provider.pinata, some e⟩
    | DeleteRes.notOk status statusText errMsg msg =>
      ⟨false, Provider.pinata, some (deleteErrMsg status statusText errMsg msg)⟩
    | DeleteRes.ok => ⟨true, Provider.pinata, none⟩

/-- One raw row of a `GET data/pinList` response.  Field names vary across
Pinata API versions; every alias consulted by `listPinataPins` is carried as
an optional field (`metadataName` stands for `metadata?.name`). -/
structure RawPin where
  ipfsPinHash : Option String
  hash : Option String
  cid : Option String
  status : Option String
  pinStatus : Option String
  state : Option String
  metadataName : Option String
  name : Option String
  datePinned : Option String
  createdAt : Option String
  dateCreated : Option String
  size : Option Nat
  pinSize : Option Nat
deriving DecidableEq, Repr

/-- A `RawPin` with every field absent, for building concrete rows tersely. -/
def emptyRawPin : RawPin :=
  ⟨none, none, none, none, none, none, none, none, none, none, none, none, none⟩

/-- `PinataPin` from pinning.ts: the normalized record shape. -/
structure PinataPin where
  cid : String
  name : Option String
  status : Option String
  createdAt : Option String
  size : Option Nat
deriving DecidableEq, Repr

/-- Status normalization in the `allPins.map` of `listPinataPins`: the first
truthy of `pin.status`, `pin.pin_status`, `pin.state`, lower-cased, else
`'unknown'`. -/
def normalizeRawStatus (p : RawPin) : String :=
  if jsTruthyS p.status then toLowerStr (p.status.getD "")
  else if jsTruthyS p.pinStatus then toLowerStr (p.pinStatus.getD "")
  else if jsTruthyS p.state then toLowerStr (p.state.getD "")
  else "unknown"

/-- The normalized record built from one raw row in `listPinataPins`:
`cid: pin.ipfs_pin_hash || pin.hash || pin.cid || ''`,
`name: pin.metadata?.name || pin.name`, the normalized status,
`createdAt: pin.date_pinned || pin.created_at || pin.dateCreated`,
`size: pin.size || pin.pin_size`. -/
def toPinataPin (p : RawPin) : PinataPin :=
  ⟨(jsOrS p.ipfsPinHash (jsOrS p.hash p.cid)).getD "",
    jsOrS p.metadataName p.name,
    some (normalizeRawStatus p),
    jsOrS p.datePinned (jsOrS p.createdAt p.dateCreated),
    jsOrN p.size p.pinSize⟩

/-- One iteration of the merge loop of `listPinataPins`: the accumulator
pairs the pins collected so far with the `existingCids` set of their raw
`ipfs_pin_hash` values; a new pin is pushed (and its hash added) only when
its `ipfs_pin_hash` is not in the set. -/
def mergeStep (acc : List RawPin × List (Option String)) (pin : RawPin) :
    List RawPin × List (Option String) :=
  if pin.ipfsPinHash ∈ acc.2 then acc
  else (acc.1 ++ [pin], acc.2 ++ [pin.ipfsPinHash])

/-- The merge-and-deduplicate step of `listPinataPins`: seed the set
`existingCids` with the `ipfs_pin_hash` of every pin already collected, then
run the merge loop over the new pins.  Deduplication compares only the raw
`ipfs_pin_hash` field (which may be absent). -/
def mergeDedup (allPins newPins : List RawPin) : List RawPin :=
  (newPins.foldl mergeStep (allPins, allPins.map (fun p => p.ipfsPinHash))).1

/-- Outcome of one `GET data/pinList` fetch: thrown, non-ok (HTTP status), or
ok with a body whose `rows` array may be absent (`result.rows || []`). -/
inductive PinListFetch where
  | threw (msg : String)
  | notOk (status : Nat)
  | ok (rows : Option (List RawPin))
deriving DecidableEq, Repr

/-- The rows a `pinList` fetch contributes: the `rows` of an ok response
(`result.rows || []`), nothing for a non-ok or thrown fetch. -/
def rowsOf : PinListFetch → List RawPin
  | PinListFetch.ok rows => rows.getD []
  | _ => []

/-- The guarded merge of one filtered `pinList` fetch in `listPinataPins`: an
ok response is merged with deduplication; a non-ok response or a thrown fetch
is logged and skipped, leaving the collected pins unchanged. -/
def mergeFetch (allPins : List RawPin) (f : PinListFetch) : List RawPin :=
  match f with
  | PinListFetch.ok rows => mergeDedup allPins (rows.getD [])
  | _ => allPins

/-- Environment of one `listPinataPins` call: the configured JWT, the
unfiltered `pinList` query, and the `status=searching` and `status=pending`
queries. -/
structure ListPinsEnv where
  jwt : Option String
  baseFetch : PinListFetch
  searchingFetch : PinListFetch
  pendingFetch : PinListFetch

/-- Result shape of `listPinataPins`. -/
structure ListPinsResult where
  success : Bool
  pins : List PinataPin
  error : Option String
deriving DecidableEq, Repr

/-- `listPinataPins(status?)` from pinning.ts: one unfiltered query (a
failure of which fails the whole call), then a `searching` and a `pending`
query, each merged with `ipfs_pin_hash`-based deduplication and each silently
skipped on a non-ok response or a thrown fetch; the merged rows are
normalized and optionally filtered by the requested status (filtering for
`pending` also keeps `searching`). -/
def listPinataPins (env : ListPinsEnv) (status : Option String) : ListPinsResult :=
  if ¬ jsTruthyS env.jwt then
    ⟨false, [],
      some "Pinata JWT not configured. Set VITE_PINATA_JWT in .env.local"⟩
  else
    match env.baseFetch with
    | PinListFetch.threw e => ⟨false, [], some e⟩
    | PinListFetch.notOk st =>
      ⟨false, [], some ("Failed to fetch pins: " ++ toString st)⟩
    | PinListFetch.ok rows0 =>
      let allPins := mergeFetch (mergeFetch (rows0.getD []) env.searchingFetch)
        env.pendingFetch
      let pins := allPins.map toPinataPin
      let pins := match status with
        | none => pins
        | some st =>
          let stL := toLowerStr st
          if stL = "pending" then
            pins.filter (fun p => p.status == some "pending" || p.status == some "searching")
          else
            pins.filter (fun p => p.status == some stL)
      ⟨true, pins, none⟩

/-- Result shape of `unpinAllPendingFromPinata`, extended with the
instrumentation field `attempted` (absent from the source): the identifiers
passed to `unpinFromPinata`, in call order.  It records which DELETE
requests the call issues, so that claims about which records the call removes
can be stated. -/
structure UnpinAllOutcome where
  success : Bool
  unpinned : Nat
  errors : List String
  attempted : List String
deriving DecidableEq, Repr

/-- Environment of `unpinAllPendingFromPinata`: the listing environment, the
per-identifier DELETE outcome, and the ghost field `currentStatus` giving the
provider's actual status of each identifier at deletion time.  The source
never consults `currentStatus`; it exists only to state the specification's
safety property about records whose current status is confirmed. -/
structure UnpinAllEnv where
  listEnv : ListPinsEnv
  deleteOutcome : String → DeleteRes
  currentStatus : String → String

/-- One loop iteration of `unpinAllPendingFromPinata`: skip the pin unless
its (listed) status is still `pending` or `searching`, otherwise issue the
DELETE and count it or record `cid: error`. -/
def unpinPendingStep (env : UnpinAllEnv) (acc : UnpinAllOutcome) (pin : PinataPin) :
    UnpinAllOutcome :=
  if pin.status ≠ some "pending" ∧ pin.status ≠ some "searching" then acc
  else
    let u := unpinFromPinata ⟨env.listEnv.jwt, env.deleteOutcome⟩ pin.cid
    if u.success then
      ⟨acc.success, acc.unpinned + 1, acc.errors, acc.attempted ++ [pin.cid]⟩
    else
      ⟨acc.success, acc.unpinned,
        acc.errors ++ [pin.cid ++ ": " ++ (if jsTruthyS u.error then u.error.getD "" else "Unknown error")],
        acc.attempted ++ [pin.cid]⟩

/-- `unpinAllPendingFromPinata()` from pinning.ts: list every pin once,
filter that snapshot to status `pending` or `searching`, then loop over the
filtered snapshot, re-checking only the snapshot's own `status` field (not
the provider's current state) before each DELETE. -/
def unpinAllPendingFromPinata (env : UnpinAllEnv) : UnpinAllOutcome :=
  let allPinsResult := listPinataPins env.listEnv none
  if ¬ allPinsResult.success then
    ⟨false, 0,
      [(if jsTruthyS allPinsResult.error then allPinsResult.error.getD "" else "Failed to fetch pins")],
      []⟩
  else
    let pendingPins := allPinsResult.pins.filter
      (fun pin => pin.status == some "pending" || pin.status == some "searching")
    if pendingPins.isEmpty then ⟨true, 0, [], []⟩
    else pendingPins.foldl (unpinPendingStep env) ⟨true, 0, [], []⟩

/-- UTF-8 encoding of one character (the `TextEncoder` used by
`uploadToIPFS`): one to four byte values depending on the code point. -/
def utf8EncodeChar (c : Char) : List Nat :=
  let v := c.toNat
  if v < 128 then [v]
  else if v < 2048 then [192 + v / 64, 128 + v % 64]
  else if v < 65536 then [224 + v / 4096, 128 + (v / 64) % 64, 128 + v % 64]
  else [240 + v / 262144, 128 + (v / 4096) % 64, 128 + (v / 64) % 64, 128 + v % 64]

/-- UTF-8 encoding of a string as a byte-value list. -/
def utf8Encode (s : String) : List Nat :=
  (s.toList.map utf8EncodeChar).flatten

/-! Decoding of UTF-8 byte lists to code-point lists (the `TextDecoder` used
by `getFromIPFS`, modelled on well-formed input: a malformed sequence yields
`none`).  The helpers `utf8DecodeTwo`/`Three`/`Four` consume the
continuation bytes of a 2-, 3- or 4-byte sequence headed by `b`. -/
mutual

def utf8Decode : List Nat → Option (List Nat)
  | [] => some []
  | b :: rest =>
    if b < 128 then (utf8Decode rest).map (fun cps => b :: cps)
    else if b < 192 then none
    else if b < 224 then utf8DecodeTwo b rest
    else if b < 240 then utf8DecodeThree b rest
    else if b < 248 then utf8DecodeFour b rest
    else none
termination_by l => l.length

def utf8DecodeTwo (b : Nat) : List Nat → Option (List Nat)
  | b1 :: rest1 =>
    (utf8Decode rest1).map (fun cps => ((b - 192) * 64 + (b1 - 128)) :: cps)
  | [] => none
termination_by l => l.length

def utf8DecodeThree (b : Nat) : List Nat → Option (List Nat)
  | b1 :: b2 :: rest1 =>
    (utf8Decode rest1).map
      (fun cps => ((b - 224) * 4096 + (b1 - 128) * 64 + (b2 - 128)) :: cps)
  | _ => none
termination_by l => l.length

def utf8DecodeFour (b : Nat) : List Nat → Option (List Nat)
  | b1 :: b2 :: b3 :: rest1 =>
    (utf8Decode rest1).map
      (fun cps =>
        ((b - 240) * 262144 + (b1 - 128) * 4096 + (b2 - 128) * 64 + (b3 - 128)) :: cps)
  | _ => none
termination_by l => l.length

end

/-- UTF-8 decoding to a string. -/
def utf8DecodeString (bytes : List Nat) : Option String :=
  (utf8Decode bytes).map (fun cps => String.mk (cps.map Char.ofNat))

/-- The local content store (Helia unixfs) seen by ipfs.ts: `addBytes`
returns the identifier of a byte sequence, and `cat` streams the stored
chunks for an identifier, or fails (`CID.parse` failure and a `fs.cat`
failure both land in the same caught-exception branch, so both are
modelled as `none`). -/
structure ContentStore where
  addBytes : List Nat → String
  cat : String → Option (List (List Nat))

/-- The chunk reassembly loop of `getFromIPFS`: each chunk copied at the
running offset into one buffer, i.e. concatenation in order. -/
def concatChunks (chunks : List (List Nat)) : List Nat :=
  chunks.foldl (fun acc c => acc ++ c) []

/-- `uploadToIPFS(data, autoPin)` from ipfs.ts: encode the string, add the
bytes to the store, fire the auto-pin fan-out (whose outcome is logged and
discarded: a pinning failure never fails the upload), and return the
identifier string. -/
def uploadToIPFS (store : ContentStore) (penv : PinataEnv) (kenv : KuboEnv)
    (henv : HeliaPinEnv) (data : String) (autoPin : Bool) : String :=
  let cidString := store.addBytes (utf8Encode data)
  let _pinResults :=
    if autoPin then some (pinToAllServices penv kenv henv cidString none) else none
  cidString

/-- `getFromIPFS(cid)` from ipfs.ts: stream the chunks for the identifier,
reassemble them at their offsets, and decode; any failure is caught and
re-thrown as the retrieval error. -/
def getFromIPFS (store : ContentStore) (cid : String) : Except String String :=
  match store.cat cid with
  | none => Except.error ("Failed to retrieve data from IPFS: " ++ cid)
  | some chunks =>
    match utf8DecodeString (concatChunks chunks) with
    | some s => Except.ok s
    | none => Except.error ("Failed to retrieve data from IPFS: " ++ cid)

/-- `CIDLocation` from helia-cid-search.ts; `locType` carries the string
union ('pin-store' | 'blockstore' | 'datastore' | 'indexeddb' | 'memory' |
'unknown'). -/
structure CIDLocation where
  locType : String
  database : Option String
  store : Option String
  details : Option String
deriving DecidableEq, Repr

/-- `CIDSearchResult` from helia-cid-search.ts. -/
structure CIDSearchResult where
  cid : String
  found : Bool
  locations : List CIDLocation
deriving DecidableEq, Repr

/-- One IndexedDB object store as the diagnostic search reads it: its name
and, aligned as `getAllKeys()`/`getAll()` return them, its entries as pairs
of the key (as a string, `String(key)`) and the serialized value
(`JSON.stringify(value)`). -/
structure IDBStoreModel where
  name : String
  entries : List (String × String)
deriving DecidableEq, Repr

/-- One IndexedDB database that `openDatabase` yields: its name and object
stores.  The environment's database list is the sequence of successfully
opened databases in visit order (the fixed well-known names first, then any
further names `indexedDB.databases()` reports). -/
structure IDBDatabaseModel where
  name : String
  stores : List IDBStoreModel
deriving DecidableEq, Repr

/-- JS `s.includes(sub)`: substring containment. -/
def strIncludesGo : List Char → List Char → Bool
  | [], sub => sub.isEmpty
  | c :: rest, sub => sub.isPrefixOf (c :: rest) || strIncludesGo rest sub

/-- JS `s.includes(sub)` on strings. -/
def strIncludes (s sub : String) : Bool :=
  strIncludesGo s.toList sub.toList

/-- Lookup in an association map with a default, mirroring
`results.get(cid) || dflt` on a JS `Map`. -/
def lookupD {α : Type} (m : List (String × α)) (c : String) (dflt : α) : α :=
  match m with
  | [] => dflt
  | (k, v) :: t => if k = c then v else lookupD t c dflt

/-- `results.set(k, v)` on a JS `Map`: replace the entry for `k` in place,
or append a new one. -/
def setKey {α : Type} (m : List (String × α)) (c : String) (v : α) :
    List (String × α) :=
  match m with
  | [] => [(c, v)]
  | (k, w) :: t => if k = c then (c, v) :: t else (k, w) :: setKey t c v

/-- Association map from identifiers to their recorded locations. -/
abbrev LocMap := List (String × List CIDLocation)

/-- `const locations = results.get(cid) || []; locations.push(loc);
results.set(cid, locations)` from searchIndexedDBDetailed. -/
def appendHit (m : LocMap) (c : String) (loc : CIDLocation) : LocMap :=
  setKey m c (lookupD m c [] ++ [loc])

/-- The location recorded for a key hit: the detail truncates the key to its
first 50 characters, with no marker of whether the match was exact or a
substring containment. -/
def keyHitLoc (dbName storeName keyStr : String) : CIDLocation :=
  ⟨"indexeddb", some dbName, some storeName,
    some ("Found in key: " ++ takeStr keyStr 50 ++ "...")⟩

/-- The location recorded for a serialized-value hit: the detail shows the
(truthy) key at the matching index, truncated to 50 characters. -/
def valueHitLoc (dbName storeName keyStr : String) : CIDLocation :=
  ⟨"indexeddb", some dbName, some storeName,
    some ("Found in value at key: " ++
      (if keyStr ≠ "" then takeStr keyStr 50 else "unknown"))⟩

/-- The `keys.forEach` body of searchIndexedDBDetailed for one key: record a
hit for every target identifier that contains or is contained in the key
(`keyStr.includes(cid) || cid.includes(keyStr)`). -/
def scanOneKey (dbName storeName : String) (cids : List String) (keyStr : String)
    (m : LocMap) : LocMap :=
  cids.foldl
    (fun m cid =>
      if strIncludes keyStr cid || strIncludes cid keyStr then
        appendHit m cid (keyHitLoc dbName storeName keyStr)
      else m)
    m

/-- The `values.forEach` body of searchIndexedDBDetailed for one entry:
record a hit for every target identifier contained in the serialized value
(`valueStr.includes(cid)`). -/
def scanOneValue (dbName storeName : String) (cids : List String)
    (keyStr valueStr : String) (m : LocMap) : LocMap :=
  cids.foldl
    (fun m cid =>
      if strIncludes valueStr cid then
        appendHit m cid (valueHitLoc dbName storeName keyStr)
      else m)
    m

/-- One object store's scan: all keys are checked first, then all serialized
values. -/
def scanStore (dbName : String) (cids : List String) (m : LocMap)
    (st : IDBStoreModel) : LocMap :=
  let m := st.entries.foldl (fun m kv => scanOneKey dbName st.name cids kv.1 m) m
  st.entries.foldl (fun m kv => scanOneValue dbName st.name cids kv.1 kv.2 m) m

/-- One database's scan: every object store in turn. -/
def scanDb (cids : List String) (m : LocMap) (db : IDBDatabaseModel) : LocMap :=
  db.stores.foldl (scanStore db.name cids) m

/-- `searchIndexedDBDetailed(cids)` from helia-cid-search.ts: initialize an
empty location list per requested identifier, then scan every openable
database. -/
def searchIndexedDBDetailed (dbs : List IDBDatabaseModel) (cids : List String) :
    LocMap :=
  let m0 := cids.foldl (fun m c => setKey m c []) []
  dbs.foldl (scanDb cids) m0

/-- Environment of `searchCIDsInHelia`: `CID.parse` outcomes, the
`helia.pins.isPinned` outcome per identifier, whether `helia.pins.ls` exists,
the pins it yields (as strings), the `helia.blockstore.get` outcome per
identifier (`some length` when a block is returned, `none` when the get
throws), and the openable IndexedDB databases. -/
structure SearchEnv where
  parseCid : String → Except String Unit
  isPinned : String → Except String Bool
  lsAvailable : Bool
  lsPins : List String
  getBlock : String → Option Nat
  dbs : List IDBDatabaseModel

/-- Per-identifier body of `searchInPinStore` from helia-cid-search.ts (the
source stores each identifier's fresh list into a map keyed by that
identifier; duplicated identifiers recompute the same list).  A parse or
`isPinned` failure is caught with the locations collected so far (none). -/
def searchInPinStore (env : SearchEnv) (cidStr : String) : List CIDLocation :=
  match env.parseCid cidStr with
  | Except.error _ => []
  | Except.ok _ =>
    match env.isPinned cidStr with
    | Except.error _ => []
    | Except.ok false => []
    | Except.ok true =>
      let locs : List CIDLocation :=
        [⟨"pin-store", none, none, some "Found in Helia pin store"⟩]
      if env.lsAvailable then
        locs ++ (env.lsPins.filter (fun pin => pin = cidStr)).map
          (fun _ => ⟨"pin-store", none, none, some "Pinned in Helia"⟩)
      else locs

/-- Per-identifier body of `searchInBlockstore` from helia-cid-search.ts: a
returned block (always truthy) records its size; a throwing get records
nothing. -/
def searchInBlockstore (env : SearchEnv) (cidStr : String) : List CIDLocation :=
  match env.parseCid cidStr with
  | Except.error _ => []
  | Except.ok _ =>
    match env.getBlock cidStr with
    | some len =>
      [⟨"blockstore", none, none, some ("Block found, size: " ++ toString len ++ " bytes")⟩]
    | none => []

/-- `searchCIDsInHelia(helia, cids)` from helia-cid-search.ts: pin store,
blockstore and IndexedDB locations concatenated per identifier, in request
order, with `found: locations.length > 0`. -/
def searchCIDsInHelia (env : SearchEnv) (cids : List String) : List CIDSearchResult :=
  let indexedDBResults := searchIndexedDBDetailed env.dbs cids
  cids.map (fun cid =>
    let locations := searchInPinStore env cid ++ searchInBlockstore env cid ++
      lookupD indexedDBResults cid []
    ⟨cid, decide (0 < locations.length), locations⟩)

/-- `checkMultipleCIDsInIndexedDB(cids)` from indexeddb-check.ts, with the
CID extraction of `listCIDsInIndexedDB()` (IndexedDB reads plus the
CID-shaped-token regex) abstracted as the input `indexedDBCIDs`: a requested
identifier is found when it is exactly in that set, or — as a fallback —
when it contains or is contained in one of its members. -/
def checkMultipleCIDsInIndexedDB (indexedDBCIDs : List String)
    (cids : List String) : List (String × Bool) :=
  cids.foldl
    (fun results cid =>
      setKey results cid
        (indexedDBCIDs.contains cid ||
          indexedDBCIDs.any (fun dbCid => strIncludes dbCid cid || strIncludes cid dbCid)))
    []

/-! ### Lemmas about the confirmation loop -/

/-- A run of the confirmation loop that answers `true` did so because some
status query returned a response listing the identifier. -/
theorem waitForPinataPinGo_true {q : Nat → Except String ListResp} {cid : String} :
    ∀ n i, waitForPinataPinGo q cid i n = true →
      ∃ j resp, q j = Except.ok resp ∧ hasPinnedCid resp cid = true := by
  intro n
  induction n with
  | zero => intro i h; simp [waitForPinataPinGo] at h
  | succ n ih =>
    intro i h
    cases hq : q i with
    | ok files =>
      simp only [waitForPinataPinGo, hq] at h
      by_cases hp : hasPinnedCid files cid = true
      · exact ⟨i, files, hq, hp⟩
      · rw [if_neg hp] at h
        exact ih (i + 1) h
    | error e =>
      simp only [waitForPinataPinGo, hq] at h
      exact ih (i + 1) h

/-- The confirmation loop consults only the queries inside its window: two
query streams that agree on the window give the same answer. -/
theorem waitForPinataPinGo_congr {q q' : Nat → Except String ListResp} {cid : String} :
    ∀ n i, (∀ j, i ≤ j → j < i + n → q j = q' j) →
      waitForPinataPinGo q cid i n = waitForPinataPinGo q' cid i n := by
  intro n
  induction n with
  | zero => intro i _; rfl
  | succ n ih =>
    intro i h
    have hqi : q i = q' i := h i le_rfl (by omega)
    cases hq : q i with
    | ok files =>
      have hq2 : q' i = Except.ok files := by rw [← hqi, hq]
      simp only [waitForPinataPinGo, hq, hq2]
      by_cases hp : hasPinnedCid files cid = true
      · rw [if_pos hp, if_pos hp]
      · rw [if_neg hp, if_neg hp]
        exact ih (i + 1) (fun j h1 h2 => h j (by omega) (by omega))
    | error e =>
      have hq2 : q' i = Except.error e := by rw [← hqi, hq]
      simp only [waitForPinataPinGo, hq, hq2]
      exact ih (i + 1) (fun j h1 h2 => h j (by omega) (by omega))

/-- A window exhausted without confirmation — every query either throws or
returns a response in which the identifier is absent — ends with `false`. -/
theorem waitForPinataPinGo_noConfirm {q : Nat → Except String ListResp} {cid : String} :
    ∀ n i, (∀ j resp, i ≤ j → j < i + n → q j = Except.ok resp →
        hasPinnedCid resp cid = false) →
      waitForPinataPinGo q cid i n = false := by
  intro n
  induction n with
  | zero => intro i _; rfl
  | succ n ih =>
    intro i h
    cases hq : q i with
    | ok files =>
      simp only [waitForPinataPinGo, hq]
      have hp : hasPinnedCid files cid = false := h i files le_rfl (by omega) hq
      rw [hp, if_neg (by simp)]
      exact ih (i + 1) (fun j resp h1 h2 hj => h j resp (by omega) (by omega) hj)
    | error e =>
      simp only [waitForPinataPinGo, hq]
      exact ih (i + 1) (fun j resp h1 h2 hj => h j resp (by omega) (by omega) hj)

/-- C7: for every query stream, the confirmation loop with attempt count `n`
is total and strictly bounded.  First, it consults at most the `n` queries
of its window and sleeps only for the fixed delay: any stream agreeing on
indices `< n` yields the same result, under any delay.  Second, whenever the
window is exhausted without confirmation — each in-window query that returns
at all returns a response not listing the identifier, which in particular
covers a window in which every query throws — the loop returns `false`
rather than raising. -/
theorem waitForPinataPin_bounded (q q' : Nat → Except String ListResp)
    (cid : String) (n d d' : Nat) :
    ((∀ i, i < n → q i = q' i) →
        waitForPinataPin q cid n d = waitForPinataPin q' cid n d') ∧
      ((∀ i resp, i < n → q i = Except.ok resp → hasPinnedCid resp cid = false) →
        waitForPinataPin q cid n d = false) := by
  constructor
  · intro hagree
    exact waitForPinataPinGo_congr n 0 (fun j _ h2 => hagree j (by omega))
  · intro hnc
    exact waitForPinataPinGo_noConfirm n 0 (fun j resp _ h2 hj => hnc j resp (by omega) hj)

/-- A query stream whose responses never list any identifier: the window
runs out without confirmation and without a single thrown query. -/
def qEmptyResp : Nat → Except String ListResp := fun _ => Except.ok ⟨some [], none⟩

/-- Witness for C7 at a concrete never-confirming stream with 3 attempts
and two different delays. -/
theorem waitForPinataPin_bounded_witness :
    waitForPinataPin qEmptyResp "QmA" 3 1000 = waitForPinataPin qEmptyResp "QmA" 3 500 ∧
      waitForPinataPin qEmptyResp "QmA" 3 1000 = false := by
  refine ⟨(waitForPinataPin_bounded qEmptyResp qEmptyResp "QmA" 3 1000 500).1
      (fun _ _ => rfl),
    (waitForPinataPin_bounded qEmptyResp qEmptyResp "QmA" 3 1000 500).2 ?_⟩
  intro i resp _ hq
  injection hq with h
  rw [← h]
  rfl

/-- C1: `pinToPinata` reports `success:true` only when some status/listing
query of the provider itself returned a response in which the identifier is
present (`hasPinnedCid`); the submission acknowledgement alone never yields
success. -/
theorem pinToPinata_success_confirmed (env : PinataEnv) (cid : String)
    (content : Option ContentArg)
    (h : (pinToPinata env cid content).success = true) :
    ∃ i resp, env.listQuery i = Except.ok resp ∧ hasPinnedCid resp cid = true := by
  unfold pinToPinata at h
  split at h
  · simp at h
  · split at h
    · simp at h
    · split at h
      · next hw1 => exact waitForPinataPinGo_true 5 0 hw1
      · split at h
        · simp at h
        · split at h
          · simp at h
          · split at h
            · simp at h
            · split at h
              · next hw2 =>
                have hw2g : waitForPinataPinGo (fun i => env.listQuery (5 + i)) cid 0 6 = true := hw2
                obtain ⟨j, resp, hq, hp⟩ := waitForPinataPinGo_true 6 0 hw2g
                exact ⟨5 + j, resp, hq, hp⟩
              · simp at h

/-- A Pinata environment whose very first status query already lists the
identifier. -/
def pinataEnvConfirm : PinataEnv :=
  ⟨some "jwt", Except.ok (), fun _ => Except.ok ⟨some [⟨some "QmA"⟩], none⟩,
    Except.error "unused"⟩

/-- Witness for C1: a successful `pinToPinata` run, and the provider listing
that produced it. -/
theorem pinToPinata_success_confirmed_witness :
    (pinToPinata pinataEnvConfirm "QmA" none).success = true ∧
      ∃ i resp, pinataEnvConfirm.listQuery i = Except.ok resp ∧
        hasPinnedCid resp "QmA" = true :=
  ⟨by rfl, pinToPinata_success_confirmed pinataEnvConfirm "QmA" none (by rfl)⟩

/-! ### The orchestrator -/

/-- Every branch of `pinToPinata` reports the `pinata` provider. -/
theorem pinToPinata_provider (env : PinataEnv) (cid : String)
    (content : Option ContentArg) :
    (pinToPinata env cid content).provider = Provider.pinata := by
  unfold pinToPinata
  repeat' split
  all_goals rfl

/-- Every branch of `pinToLocalNode` reports the `local-node` provider. -/
theorem pinToLocalNode_provider (env : KuboEnv) (cid : String) :
    (pinToLocalNode env cid).provider = Provider.localNode := by
  unfold pinToLocalNode
  repeat' split
  all_goals rfl

/-- Every branch of `pinToHeliaLocal` reports the `helia-local` provider. -/
theorem pinToHeliaLocal_provider (env : HeliaPinEnv) (cid : String) :
    (pinToHeliaLocal env cid).provider = Provider.heliaLocal := by
  unfold pinToHeliaLocal
  repeat' split
  all_goals rfl

/-- C3: `pinToAllServices` always returns a result list — exactly one entry
per configured provider, in order — and when the local Helia pin succeeds
while both remote providers (Pinata, local Kubo node) fail, the list has
2 + 1 = 3 entries of which exactly one is `success:true`; a total remote
failure is an all-false list, never an exception. -/
theorem pinToAllServices_results (penv : PinataEnv) (kenv : KuboEnv)
    (henv : HeliaPinEnv) (cid : String) (content : Option ContentArg)
    (hh : (pinToHeliaLocal henv cid).success = true)
    (hp : (pinToPinata penv cid content).success = false)
    (hk : (pinToLocalNode kenv cid).success = false) :
    (pinToAllServices penv kenv henv cid content).length = 3 ∧
      (pinToAllServices penv kenv henv cid content).map (fun r => r.provider) =
        [Provider.pinata, Provider.localNode, Provider.heliaLocal] ∧
      ((pinToAllServices penv kenv henv cid content).filter (fun r => r.success)).length = 1 := by
  refine ⟨rfl, ?_, ?_⟩
  · simp [pinToAllServices, pinToPinata_provider, pinToLocalNode_provider,
      pinToHeliaLocal_provider]
  · simp [pinToAllServices, List.filter, hp, hk, hh]

/-- A Pinata environment with no configured JWT (submission refused). -/
def pinataEnvUnconfigured : PinataEnv :=
  ⟨none, Except.ok (), fun _ => Except.error "unreachable", Except.error "unreachable"⟩

/-- A Kubo environment in which the node is unreachable. -/
def kuboEnvDown : KuboEnv := ⟨KuboAddRes.fetchTypeError "fetch failed"⟩

/-- A Helia environment in which the local pin succeeds. -/
def heliaEnvOk : HeliaPinEnv := ⟨fun _ => Except.ok (), Except.ok ()⟩

/-- Witness for C3: local success and total remote failure at concrete
environments. -/
theorem pinToAllServices_results_witness :
    (pinToAllServices pinataEnvUnconfigured kuboEnvDown heliaEnvOk "QmA" none).length = 3 ∧
      (pinToAllServices pinataEnvUnconfigured kuboEnvDown heliaEnvOk "QmA" none).map
          (fun r => r.provider) =
        [Provider.pinata, Provider.localNode, Provider.heliaLocal] ∧
      ((pinToAllServices pinataEnvUnconfigured kuboEnvDown heliaEnvOk "QmA" none).filter
          (fun r => r.success)).length = 1 :=
  pinToAllServices_results pinataEnvUnconfigured kuboEnvDown heliaEnvOk "QmA" none
    (by rfl) (by rfl) (by rfl)

/-! ### The diagnostic search shape -/

/-- C10: `searchCIDsInHelia` returns exactly one result per requested
identifier, in request order, and each result's `found` flag is true exactly
when at least one location was recorded for it. -/
theorem searchCIDsInHelia_shape (env : SearchEnv) (cids : List String)
    (r : CIDSearchResult) (h : r ∈ searchCIDsInHelia env cids) :
    (searchCIDsInHelia env cids).map (fun s => s.cid) = cids ∧
      (r.found = true ↔ r.locations ≠ []) := by
  constructor
  · simp [searchCIDsInHelia, List.map_map, Function.comp_def]
  · unfold searchCIDsInHelia at h
    simp only [List.mem_map] at h
    obtain ⟨cid, _, rfl⟩ := h
    simp [List.length_pos]
    tauto

/-- A search environment with one pinned identifier and no IndexedDB
content. -/
def searchEnvPinned : SearchEnv :=
  ⟨fun _ => Except.ok (), fun _ => Except.ok true, false, [], fun _ => none, []⟩

/-- Witness for C10 at a concrete environment and identifier list. -/
theorem searchCIDsInHelia_shape_witness :
    (searchCIDsInHelia searchEnvPinned ["QmA"]).map (fun s => s.cid) = ["QmA"] ∧
      ((⟨"QmA", true,
          [⟨"pin-store", none, none, some "Found in Helia pin store"⟩]⟩ :
            CIDSearchResult).found = true ↔
        (⟨"QmA", true,
          [⟨"pin-store", none, none, some "Found in Helia pin store"⟩]⟩ :
            CIDSearchResult).locations ≠ []) :=
  searchCIDsInHelia_shape searchEnvPinned ["QmA"]
    ⟨"QmA", true, [⟨"pin-store", none, none, some "Found in Helia pin store"⟩]⟩
    (by decide)

/-! ### Unpin (C4) -/

/-- An unpin environment in which the provider answers the DELETE with a
404 not-found. -/
def unpinEnv404 : UnpinPinataEnv :=
  ⟨some "jwt", fun _ => DeleteRes.notOk 404 "Not Found" none none⟩

/-- Counterexample to C4: when the provider does not hold the identifier
(DELETE answers 404 not-found), `unpinFromPinata` returns `success:false`
with the HTTP error — not-found is not treated as success. -/
theorem unpinFromPinata_notFound_fails :
    unpinFromPinata unpinEnv404 "QmGone" =
      ⟨false, Provider.pinata, some "HTTP 404: Not Found"⟩ := by
  rfl

/-- C4 amended: `unpinFromPinata` succeeds exactly when the JWT is
configured and the provider's DELETE responds ok; every non-ok response —
including a not-found for an identifier the provider does not hold — is
reported as `success:false`, so the operation is not idempotent in the
claimed sense. -/
theorem unpinFromPinata_success_iff (env : UnpinPinataEnv) (cid : String) :
    (unpinFromPinata env cid).success = true ↔
      (jsTruthyS env.jwt = true ∧ env.deleteOutcome cid = DeleteRes.ok) := by
  unfold unpinFromPinata
  by_cases hj : jsTruthyS env.jwt = true
  · rw [if_neg (by simp [hj])]
    cases hd : env.deleteOutcome cid <;> simp [hj]
  · rw [if_pos (by simp [hj])]
    simp [hj]

/-! ### Status reconciliation (C5) -/

/-- A status environment whose `CID.parse` accepts only `QmValid`. -/
def statusEnvStrict : StatusEnv :=
  ⟨fun s => if s = "QmValid" then Except.ok ()
    else Except.error ("Failed to parse CID: " ++ s),
    Except.ok true, some "jwt", Except.ok ⟨some [], none⟩, KuboLsRes.ok (some [])⟩

/-- Counterexample to C5: for an identifier string `CID.parse` rejects,
`checkPinningStatus` propagates the parse exception to the caller instead of
returning a snapshot — `CID.parse(cid)` runs before any `try` block. -/
theorem checkPinningStatus_throws_on_bad_cid :
    checkPinningStatus statusEnvStrict "not-a-cid" =
      Except.error "Failed to parse CID: not-a-cid" := by
  rfl

/-- C5 amended: for every identifier string that `CID.parse` accepts,
`checkPinningStatus` returns a structured snapshot and never throws, and
each provider's boolean is computed from that provider's own outcome alone
(`pinataPinVal`, `kuboPinVal`, `heliaPinVal`), so a failing or unreachable
provider contributes `false` for itself without affecting the others. -/
theorem checkPinningStatus_snapshot (env : StatusEnv) (cid : String)
    (h : env.parseCid cid = Except.ok ()) :
    checkPinningStatus env cid =
      Except.ok ⟨pinataPinVal env.jwt env.pinataList cid,
        kuboPinVal env.kuboPinLs cid, heliaPinVal env.heliaIsPinned⟩ := by
  unfold checkPinningStatus pinataPinVal kuboPinVal heliaPinVal
  rw [h]

/-- A status environment in which the Pinata check throws while the Helia
and Kubo checks answer normally. -/
def statusEnvMixed : StatusEnv :=
  ⟨fun _ => Except.ok (), Except.ok true, some "jwt",
    Except.error "pinata down", KuboLsRes.ok (some ["QmA"])⟩

/-- Witness for the amended C5: with the Pinata check throwing, the snapshot
still comes back, with `false` for Pinata and the other providers
unaffected. -/
theorem checkPinningStatus_snapshot_witness :
    checkPinningStatus statusEnvMixed "QmA" =
      Except.ok ⟨pinataPinVal statusEnvMixed.jwt statusEnvMixed.pinataList "QmA",
        kuboPinVal statusEnvMixed.kuboPinLs "QmA",
        heliaPinVal statusEnvMixed.heliaIsPinned⟩ :=
  checkPinningStatus_snapshot statusEnvMixed "QmA" (by rfl)

/-! ### Bulk unpin of pending records (C2) -/

/-- A raw listing row for `QmY` with status `pending`. -/
def rawPendingQmY : RawPin :=
  ⟨some "QmY", none, none, some "pending", none, none, none, none, none,
    none, none, none, none⟩

/-- An environment in which the listing snapshot reports `QmY` as pending,
the DELETE succeeds, but the provider's actual status at deletion time is
already `pinned` (the pin was confirmed between the snapshot and the
deletion loop). -/
def unpinAllEnvStale : UnpinAllEnv :=
  ⟨⟨some "jwt", PinListFetch.ok (some [rawPendingQmY]),
      PinListFetch.notOk 500, PinListFetch.notOk 500⟩,
    fun _ => DeleteRes.ok,
    fun _ => "pinned"⟩

/-- Counterexample to C2: `unpinAllPendingFromPinata` deletes `QmY` on the
strength of the stale snapshot status alone, although the record's current
provider status at deletion time is `pinned` — the status is not re-checked
against the provider before each deletion. -/
theorem unpinAllPending_removes_currently_pinned :
    (unpinAllPendingFromPinata unpinAllEnvStale).attempted = ["QmY"] ∧
      (unpinAllPendingFromPinata unpinAllEnvStale).unpinned = 1 ∧
      unpinAllEnvStale.currentStatus "QmY" = "pinned" := by
  refine ⟨?_, ?_, rfl⟩ <;> decide

/-- Deletions issued by the unpin loop target only identifiers of pins in
the list the loop was started on, beyond those already attempted. -/
theorem unpinPendingFold_attempted (env : UnpinAllEnv) (cid : String) :
    ∀ (l : List PinataPin) (acc : UnpinAllOutcome),
      cid ∈ (l.foldl (unpinPendingStep env) acc).attempted →
        cid ∈ acc.attempted ∨ ∃ p ∈ l, p.cid = cid := by
  intro l
  induction l with
  | nil => intro acc h; exact Or.inl h
  | cons p t ih =>
    intro acc h
    rcases ih (unpinPendingStep env acc p) h with h1 | h2
    · simp only [unpinPendingStep] at h1
      split at h1
      · exact Or.inl h1
      · split at h1 <;>
          (simp only [List.mem_append, List.mem_singleton] at h1
           rcases h1 with h1 | h1
           · exact Or.inl h1
           · exact Or.inr ⟨p, List.mem_cons_self p t, h1.symm⟩)
    · obtain ⟨p1, hp1, hcid⟩ := h2
      exact Or.inr ⟨p1, List.mem_cons_of_mem p hp1, hcid⟩

/-- C2 amended: every deletion `unpinAllPendingFromPinata` issues targets a
record whose status *in the one listing snapshot taken at the start of the
call* is `pending` or `searching` — it never deletes a record the snapshot
listed as pinned — but that status is not re-queried from the provider
immediately before each deletion, so a record confirmed after the snapshot
can still be removed (see the counterexample). -/
theorem unpinAllPending_snapshot_filter (env : UnpinAllEnv) (cid : String)
    (h : cid ∈ (unpinAllPendingFromPinata env).attempted) :
    ∃ p ∈ (listPinataPins env.listEnv none).pins,
      p.cid = cid ∧ (p.status = some "pending" ∨ p.status = some "searching") := by
  simp only [unpinAllPendingFromPinata] at h
  split at h
  · simp at h
  · split at h
    · simp at h
    · rcases unpinPendingFold_attempted env cid _ _ h with h1 | h2
      · simp at h1
      · obtain ⟨p, hp, hcid⟩ := h2
        rw [List.mem_filter] at hp
        refine ⟨p, hp.1, hcid, ?_⟩
        have := hp.2
        simp only [Bool.or_eq_true, beq_iff_eq] at this
        exact this

/-- Witness for the amended C2 at the concrete stale environment. -/
theorem unpinAllPending_snapshot_filter_witness :
    ∃ p ∈ (listPinataPins unpinAllEnvStale.listEnv none).pins,
      p.cid = "QmY" ∧ (p.status = some "pending" ∨ p.status = some "searching") :=
  unpinAllPending_snapshot_filter unpinAllEnvStale "QmY" (by decide)

/-! ### Listing with deduplication (C6) -/

/-- A raw row carrying its identifier only under the `hash` alias. -/
def rawAliasHashQmX : RawPin :=
  ⟨none, some "QmX", none, some "pinned", none, none, none, none, none,
    none, none, none, none⟩

/-- A raw row for the same identifier under the `ipfs_pin_hash` field. -/
def rawSearchingQmX : RawPin :=
  ⟨some "QmX", none, none, some "searching", none, none, none, none, none,
    none, none, none, none⟩

/-- A listing environment whose unfiltered query returns `QmX` under the
`hash` alias and whose `searching` query returns the same identifier under
`ipfs_pin_hash`. -/
def listEnvAlias : ListPinsEnv :=
  ⟨some "jwt", PinListFetch.ok (some [rawAliasHashQmX]),
    PinListFetch.ok (some [rawSearchingQmX]), PinListFetch.notOk 500⟩

/-- Counterexample to C6: deduplication compares only the raw
`ipfs_pin_hash` field, so the same identifier returned under the `hash`
alias by one query and under `ipfs_pin_hash` by another appears twice in the
returned pin list. -/
theorem listPinataPins_alias_duplicate :
    (listPinataPins listEnvAlias none).pins.map (fun p => p.cid) =
        ["QmX", "QmX"] ∧
      ¬ ((listPinataPins listEnvAlias none).pins.map (fun p => p.cid)).Nodup := by
  refine ⟨by decide, by decide⟩

/-- Pins collected by the merge loop come from the accumulator or from the
new rows. -/
theorem mergeFold_mem (p : RawPin) :
    ∀ (newPins : List RawPin) (acc : List RawPin × List (Option String)),
      p ∈ (newPins.foldl mergeStep acc).1 → p ∈ acc.1 ∨ p ∈ newPins := by
  intro newPins
  induction newPins with
  | nil => intro acc h; exact Or.inl h
  | cons q t ih =>
    intro acc h
    rcases ih (mergeStep acc q) h with h1 | h2
    · unfold mergeStep at h1
      split at h1
      · exact Or.inl h1
      · simp only [List.mem_append, List.mem_singleton] at h1
        rcases h1 with h1 | h1
        · exact Or.inl h1
        · exact Or.inr (h1 ▸ List.mem_cons_self q t)
    · exact Or.inr (List.mem_cons_of_mem q h2)

/-- The merge loop preserves the no-duplicate invariant on the raw
`ipfs_pin_hash` projection, given the seeded set mirrors the accumulator. -/
theorem mergeFold_nodup :
    ∀ (newPins : List RawPin) (acc : List RawPin × List (Option String)),
      acc.2 = acc.1.map (fun p => p.ipfsPinHash) →
      (acc.1.map (fun p => p.ipfsPinHash)).Nodup →
      (((newPins.foldl mergeStep acc).1).map (fun p => p.ipfsPinHash)).Nodup := by
  intro newPins
  induction newPins with
  | nil => intro acc _ h2; exact h2
  | cons q t ih =>
    intro acc h1 h2
    by_cases hc : q.ipfsPinHash ∈ acc.2
    · have hstep : mergeStep acc q = acc := by unfold mergeStep; rw [if_pos hc]
      rw [List.foldl_cons, hstep]
      exact ih acc h1 h2
    · have hstep : mergeStep acc q = (acc.1 ++ [q], acc.2 ++ [q.ipfsPinHash]) := by
        unfold mergeStep; rw [if_neg hc]
      rw [List.foldl_cons, hstep]
      apply ih
      · simp [h1]
      · rw [h1] at hc
        simp [List.nodup_append, h2]
        simpa using hc

/-- `mergeDedup` preserves the no-duplicate invariant on `ipfs_pin_hash`. -/
theorem mergeDedup_nodup (allPins newPins : List RawPin)
    (h : (allPins.map (fun p => p.ipfsPinHash)).Nodup) :
    ((mergeDedup allPins newPins).map (fun p => p.ipfsPinHash)).Nodup := by
  unfold mergeDedup
  exact mergeFold_nodup newPins (allPins, allPins.map (fun p => p.ipfsPinHash)) rfl h

/-- Elements of `mergeDedup` come from one of its two inputs. -/
theorem mergeDedup_mem (allPins newPins : List RawPin) (p : RawPin)
    (h : p ∈ mergeDedup allPins newPins) : p ∈ allPins ∨ p ∈ newPins := by
  unfold mergeDedup at h
  exact mergeFold_mem p newPins (allPins, allPins.map (fun q => q.ipfsPinHash)) h

/-- `mergeFetch` preserves the no-duplicate invariant on `ipfs_pin_hash`. -/
theorem mergeFetch_nodup (allPins : List RawPin) (f : PinListFetch)
    (h : (allPins.map (fun p => p.ipfsPinHash)).Nodup) :
    ((mergeFetch allPins f).map (fun p => p.ipfsPinHash)).Nodup := by
  cases f with
  | ok rows => exact mergeDedup_nodup allPins (rows.getD []) h
  | threw e => exact h
  | notOk st => exact h

/-- Elements of `mergeFetch` come from the collected pins or the fetch's
rows. -/
theorem mergeFetch_mem (allPins : List RawPin) (f : PinListFetch) (p : RawPin)
    (h : p ∈ mergeFetch allPins f) : p ∈ allPins ∨ p ∈ rowsOf f := by
  cases f with
  | ok rows => exact mergeDedup_mem allPins (rows.getD []) p h
  | threw e => exact Or.inl h
  | notOk st => exact Or.inl h

/-- A truthy optional string is a nonempty `some`. -/
theorem jsTruthyS_iff (o : Option String) :
    jsTruthyS o = true ↔ ∃ s, o = some s ∧ s ≠ "" := by
  cases o <;> simp [jsTruthyS]

/-- When the raw `ipfs_pin_hash` field is truthy, the normalized record's
`cid` is exactly its value. -/
theorem toPinataPin_cid_of_truthy (p : RawPin)
    (h : jsTruthyS p.ipfsPinHash = true) :
    (toPinataPin p).cid = p.ipfsPinHash.getD "" := by
  simp [toPinataPin, jsOrS, h]

/-- C6 amended: `listPinataPins` issues one unfiltered query plus one query
per pending-like status and merges them deduplicating by the raw
`ipfs_pin_hash` field only.  When every contributing raw row carries its
identifier in that field (truthy) and the unfiltered response itself has no
duplicate `ipfs_pin_hash`, no identifier appears twice in the returned pin
list; when overlapping queries return the same identifier under different
field aliases, deduplication misses it and the identifier can appear twice
(see the counterexample). -/
theorem listPinataPins_dedup (env : ListPinsEnv) (status : Option String)
    (H1 : ∀ p, p ∈ rowsOf env.baseFetch ++ rowsOf env.searchingFetch ++
      rowsOf env.pendingFetch → jsTruthyS p.ipfsPinHash = true)
    (H2 : ((rowsOf env.baseFetch).map (fun p => p.ipfsPinHash)).Nodup) :
    ((listPinataPins env status).pins.map (fun p => p.cid)).Nodup := by
  simp only [listPinataPins]
  by_cases hj : jsTruthyS env.jwt = true
  case neg => rw [if_pos (by simp [hj])]; simp
  rw [if_neg (by simp [hj])]
  cases hb : env.baseFetch with
  | threw e => simp
  | notOk st => simp
  | ok rows0 =>
    have hbase : rowsOf env.baseFetch = rows0.getD [] := by rw [hb]; rfl
    have hnodup :
        ((mergeFetch (mergeFetch (rows0.getD []) env.searchingFetch)
            env.pendingFetch).map (fun p => p.ipfsPinHash)).Nodup := by
      apply mergeFetch_nodup
      apply mergeFetch_nodup
      rw [← hbase]; exact H2
    have hmem : ∀ p, p ∈ mergeFetch (mergeFetch (rows0.getD []) env.searchingFetch)
        env.pendingFetch → jsTruthyS p.ipfsPinHash = true := by
      intro p hp
      rcases mergeFetch_mem _ _ _ hp with hp1 | hp2
      · rcases mergeFetch_mem _ _ _ hp1 with hp3 | hp4
        · exact H1 p (by rw [hbase] at H1 ⊢; simp [hp3])
        · exact H1 p (by simp [hp4])
      · exact H1 p (by simp [hp2])
    have key : ((mergeFetch (mergeFetch (rows0.getD []) env.searchingFetch)
        env.pendingFetch).map toPinataPin).map (fun p => p.cid) |>.Nodup := by
      rw [List.map_map]
      have hinj := List.inj_on_of_nodup_map hnodup
      have hln : (mergeFetch (mergeFetch (rows0.getD []) env.searchingFetch)
          env.pendingFetch).Nodup := hnodup.of_map
      apply hln.map_on
      intro x hx y hy hxy
      obtain ⟨sx, hsx, hsx0⟩ := (jsTruthyS_iff _).mp (hmem x hx)
      obtain ⟨sy, hsy, hsy0⟩ := (jsTruthyS_iff _).mp (hmem y hy)
      simp only [Function.comp_apply] at hxy
      rw [toPinataPin_cid_of_truthy x (hmem x hx),
        toPinataPin_cid_of_truthy y (hmem y hy), hsx, hsy] at hxy
      simp only [Option.getD_some] at hxy
      exact hinj hx hy (by rw [hsx, hsy, hxy])
    cases status with
    | none => exact key
    | some st =>
      simp only []
      split
      · exact List.Nodup.sublist ((List.filter_sublist _).map _) key
      · exact List.Nodup.sublist ((List.filter_sublist _).map _) key

/-- A well-aliased listing environment: every row carries `ipfs_pin_hash`. -/
def listEnvUniform : ListPinsEnv :=
  ⟨some "jwt", PinListFetch.ok (some [rawPendingQmY]),
    PinListFetch.ok (some [rawSearchingQmX, rawPendingQmY]), PinListFetch.notOk 500⟩

/-- Witness for the amended C6: with uniform `ipfs_pin_hash` rows, the
returned pin list has pairwise distinct identifiers. -/
theorem listPinataPins_dedup_witness :
    ((listPinataPins listEnvUniform none).pins.map (fun p => p.cid)).Nodup :=
  listPinataPins_dedup listEnvUniform none (by decide) (by decide)

/-! ### Diagnostic substring matching (C8) -/

/-- Reading the key just written. -/
theorem lookupD_setKey {α : Type} (m : List (String × α)) (c : String) (v : α)
    (d : α) : lookupD (setKey m c v) c d = v := by
  induction m with
  | nil => simp [setKey, lookupD]
  | cons kv t ih =>
    unfold setKey
    by_cases hk : kv.1 = c
    · rw [if_pos hk]; simp [lookupD]
    · rw [if_neg hk]
      unfold lookupD
      rw [if_neg hk]
      exact ih

/-- Reading another key is unaffected by a write. -/
theorem lookupD_setKey_ne {α : Type} (m : List (String × α)) (c c' : String)
    (v : α) (d : α) (hne : c' ≠ c) :
    lookupD (setKey m c v) c' d = lookupD m c' d := by
  induction m with
  | nil =>
    unfold setKey lookupD
    rw [if_neg (fun h : c = c' => hne h.symm)]
    rfl
  | cons kv t ih =>
    unfold setKey
    by_cases hk : kv.1 = c
    · rw [if_pos hk]
      unfold lookupD
      rw [if_neg (fun h : c = c' => hne h.symm),
        if_neg (fun h : kv.1 = c' => hne ((hk.symm.trans h).symm))]
    · rw [if_neg hk]
      unfold lookupD
      by_cases hk2 : kv.1 = c'
      · rw [if_pos hk2, if_pos hk2]
      · rw [if_neg hk2, if_neg hk2]
        exact ih

/-- The per-identifier soundness invariant of the location map: every
recorded location satisfies `P`. -/
def LocInv (P : String → CIDLocation → Prop) (m : LocMap) : Prop :=
  ∀ c loc, loc ∈ lookupD m c [] → P c loc

/-- Appending one sound hit preserves the invariant. -/
theorem appendHit_locInv {P : String → CIDLocation → Prop} {m : LocMap}
    (hm : LocInv P m) {c : String} {loc : CIDLocation} (hp : P c loc) :
    LocInv P (appendHit m c loc) := by
  intro c' loc' h'
  unfold appendHit at h'
  by_cases hc : c' = c
  · subst hc
    rw [lookupD_setKey] at h'
    rcases List.mem_append.mp h' with h' | h'
    · exact hm c' loc' h'
    · rw [List.mem_singleton.mp h']
      exact hp
  · rw [lookupD_setKey_ne _ _ _ _ _ hc] at h'
    exact hm c' loc' h'

/-- The conditional-append loop over the requested identifiers preserves the
invariant when the guard implies soundness of the appended location. -/
theorem condFold_locInv (P : String → CIDLocation → Prop) (f : String → Bool)
    (loc : CIDLocation) (hyp : ∀ c, f c = true → P c loc) :
    ∀ (cids : List String) (m : LocMap), LocInv P m →
      LocInv P (cids.foldl (fun m c => if f c then appendHit m c loc else m) m) := by
  intro cids
  induction cids with
  | nil => intro m hm; exact hm
  | cons q t ih =>
    intro m hm
    rw [List.foldl_cons]
    apply ih
    by_cases hq : f q = true
    · rw [if_pos hq]
      exact appendHit_locInv hm (hyp q hq)
    · rw [if_neg hq]
      exact hm

/-- Invariant preservation lifted through a fold over any list whose every
element's step preserves it. -/
theorem foldl_locInv {β : Type} (P : String → CIDLocation → Prop)
    (g : LocMap → β → LocMap) :
    ∀ (l : List β), (∀ b, b ∈ l → ∀ m, LocInv P m → LocInv P (g m b)) →
      ∀ m, LocInv P m → LocInv P (l.foldl g m) := by
  intro l
  induction l with
  | nil => intro _ m hm; exact hm
  | cons b t ih =>
    intro hyp m hm
    rw [List.foldl_cons]
    exact ih (fun b1 hb1 => hyp b1 (List.mem_cons_of_mem b hb1)) (g m b)
      (hyp b (List.mem_cons_self b t) m hm)

/-- The empty location map seeded by `searchIndexedDBDetailed` records no
locations. -/
theorem lookupD_init (cids : List String) :
    ∀ (m : LocMap), (∀ c, lookupD m c [] = []) →
      ∀ c, lookupD (cids.foldl (fun m c => setKey m c []) m) c [] = [] := by
  induction cids with
  | nil => intro m hm c; exact hm c
  | cons q t ih =>
    intro m hm c
    rw [List.foldl_cons]
    apply ih
    intro c'
    by_cases hc : c' = q
    · subst hc; rw [lookupD_setKey]
    · rw [lookupD_setKey_ne _ _ _ _ _ hc]
      exact hm c'

/-- Soundness of one recorded location: it stems from an entry of some store
of some scanned database whose key stands in substring containment with the
identifier (a key hit, recorded as `keyHitLoc`) or whose serialized value
contains the identifier (a value hit, recorded as `valueHitLoc`).  Exact
equality of key and identifier is just a special case of containment; the
record itself carries no exact-versus-heuristic marker. -/
def SoundHit (dbs : List IDBDatabaseModel) (c : String) (loc : CIDLocation) : Prop :=
  ∃ db ∈ dbs, ∃ st ∈ db.stores, ∃ kv ∈ st.entries,
    ((strIncludes kv.1 c = true ∨ strIncludes c kv.1 = true) ∧
        loc = keyHitLoc db.name st.name kv.1) ∨
      (strIncludes kv.2 c = true ∧ loc = valueHitLoc db.name st.name kv.1)

/-- Every location `searchIndexedDBDetailed` records is a sound hit. -/
theorem searchIndexedDB_sound (dbs : List IDBDatabaseModel) (cids : List String)
    (c : String) (loc : CIDLocation)
    (h : loc ∈ lookupD (searchIndexedDBDetailed dbs cids) c []) :
    SoundHit dbs c loc := by
  refine foldl_locInv (SoundHit dbs) (scanDb cids) dbs ?_ _ ?_ c loc h
  · intro db hdb m hm
    refine foldl_locInv (SoundHit dbs) (scanStore db.name cids) db.stores ?_ m hm
    intro st hst m2 hm2
    unfold scanStore
    refine foldl_locInv (SoundHit dbs) _ st.entries ?_ _ ?_
    · intro kv hkv m3 hm3
      refine condFold_locInv (SoundHit dbs) _ _ ?_ cids m3 hm3
      intro c1 hc1
      exact ⟨db, hdb, st, hst, kv, hkv, Or.inr ⟨hc1, rfl⟩⟩
    · refine foldl_locInv (SoundHit dbs) _ st.entries ?_ m2 hm2
      intro kv hkv m3 hm3
      refine condFold_locInv (SoundHit dbs) _ _ ?_ cids m3 hm3
      intro c1 hc1
      rcases Bool.or_eq_true _ _ |>.mp hc1 with hg | hg
      · exact ⟨db, hdb, st, hst, kv, hkv, Or.inl ⟨Or.inl hg, rfl⟩⟩
      · exact ⟨db, hdb, st, hst, kv, hkv, Or.inl ⟨Or.inr hg, rfl⟩⟩
  · intro c1 loc1 h1
    rw [lookupD_init cids [] (fun _ => rfl) c1] at h1
    exact absurd h1 (List.not_mem_nil loc1)

/-- A fold of per-identifier writes leaves identifiers outside the list
untouched. -/
theorem lookupD_foldl_setKey_notMem {α : Type} (f : String → α) (d : α) :
    ∀ (l : List String) (m : List (String × α)) (c : String), c ∉ l →
      lookupD (l.foldl (fun m cid => setKey m cid (f cid)) m) c d = lookupD m c d := by
  intro l
  induction l with
  | nil => intro m c _; rfl
  | cons q t ih =>
    intro m c hc
    rw [List.foldl_cons, ih (setKey m q (f q)) c (fun h => hc (List.mem_cons_of_mem q h)),
      lookupD_setKey_ne _ _ _ _ _ (fun h => hc (by rw [h]; exact List.mem_cons_self q t))]

/-- A fold of per-identifier writes records `f c` for every identifier in
the list. -/
theorem lookupD_foldl_setKey_mem {α : Type} (f : String → α) (d : α) :
    ∀ (l : List String) (m : List (String × α)) (c : String), c ∈ l →
      lookupD (l.foldl (fun m cid => setKey m cid (f cid)) m) c d = f c := by
  intro l
  induction l with
  | nil => intro m c hc; exact absurd hc (List.not_mem_nil c)
  | cons q t ih =>
    intro m c hc
    rw [List.foldl_cons]
    by_cases ht : c ∈ t
    · exact ih _ c ht
    · have hq : c = q := by
        rcases List.mem_cons.mp hc with h | h
        · exact h
        · exact absurd h ht
      subst hq
      rw [lookupD_foldl_setKey_notMem f d t _ c ht, lookupD_setKey]

/-- In `checkMultipleCIDsInIndexedDB`, a requested identifier is reported
found exactly when it is exactly one of the extracted stored CIDs or — the
substring fallback — stands in containment with one of them. -/
theorem checkMultiple_found_iff (dbCids cids : List String) (c : String)
    (h : c ∈ cids) :
    lookupD (checkMultipleCIDsInIndexedDB dbCids cids) c false = true ↔
      ∃ d ∈ dbCids, c = d ∨ strIncludes d c = true ∨ strIncludes c d = true := by
  unfold checkMultipleCIDsInIndexedDB
  rw [lookupD_foldl_setKey_mem _ false cids [] c h]
  have hcont : (dbCids.contains c = true) ↔ c ∈ dbCids := List.elem_iff
  simp only [Bool.or_eq_true, List.any_eq_true, hcont]
  constructor
  · rintro (hmem | ⟨d, hd, hg⟩)
    · exact ⟨c, hmem, Or.inl rfl⟩
    · rcases hg with hg | hg
      · exact ⟨d, hd, Or.inr (Or.inl hg)⟩
      · exact ⟨d, hd, Or.inr (Or.inr hg)⟩
  · rintro ⟨d, hd, heq | hg | hg⟩
    · exact Or.inl (heq ▸ hd)
    · exact Or.inr ⟨d, hd, Or.inl hg⟩
    · exact Or.inr ⟨d, hd, Or.inr hg⟩

/-- A 55-character identifier, longer than the 50-character truncation used
in recorded key details. -/
def cidX : String := String.mk (List.replicate 55 'a')

/-- A database holding the identifier both as an exact key and as a proper
superstring key. -/
def exDbs : List IDBDatabaseModel :=
  [⟨"helia", [⟨"blocks", [(cidX, "value"), (cidX ++ "x", "value")]⟩]⟩]

/-- The location record both keys above produce: the truncated detail is the
same for the exact key and the non-exact key. -/
def aHitLoc : CIDLocation :=
  ⟨"indexeddb", some "helia", some "blocks",
    some ("Found in key: " ++ String.mk (List.replicate 50 'a') ++ "...")⟩

/-- Counterexample to C8: the diagnostic search records the hit from the
exact key `cidX` and the hit from the non-exact superstring key `cidX ++ "x"`
as two identical `CIDLocation` records — substring hits carry no heuristic
label and are not distinguishable in the recorded location from exact
matches. -/
theorem searchIndexedDB_no_heuristic_label :
    lookupD (searchIndexedDBDetailed exDbs [cidX]) cidX [] = [aHitLoc, aHitLoc] ∧
      cidX ≠ cidX ++ "x" ∧ strIncludes (cidX ++ "x") cidX = true := by
  refine ⟨by decide, by decide, by decide⟩

/-- C8 amended: every hit the detailed search records stems from a key in
substring containment with the identifier or a serialized value containing
it (exact equality being a special case of containment), recorded with the
database and store name but no exact-versus-heuristic marker; and in
`checkMultipleCIDsInIndexedDB` the substring containment acts only as a
fallback to exact set membership — an identifier is found exactly when it
equals a stored CID or stands in containment with one. -/
theorem diagnosticSubstringFallback (dbs : List IDBDatabaseModel)
    (cids : List String) (c : String) (loc : CIDLocation)
    (dbCids cids2 : List String) (c2 : String)
    (h1 : loc ∈ lookupD (searchIndexedDBDetailed dbs cids) c [])
    (h2 : c2 ∈ cids2) :
    SoundHit dbs c loc ∧
      (lookupD (checkMultipleCIDsInIndexedDB dbCids cids2) c2 false = true ↔
        ∃ d ∈ dbCids, c2 = d ∨ strIncludes d c2 = true ∨ strIncludes c2 d = true) :=
  ⟨searchIndexedDB_sound dbs cids c loc h1, checkMultiple_found_iff dbCids cids2 c2 h2⟩

/-- Witness for the amended C8 at concrete stores and identifiers. -/
theorem diagnosticSubstringFallback_witness :
    SoundHit exDbs cidX aHitLoc ∧
      (lookupD (checkMultipleCIDsInIndexedDB ["QmA"] ["QmB"]) "QmB" false = true ↔
        ∃ d ∈ ["QmA"], "QmB" = d ∨ strIncludes d "QmB" = true ∨
          strIncludes "QmB" d = true) :=
  diagnosticSubstringFallback exDbs [cidX] cidX aHitLoc ["QmA"] ["QmB"] "QmB"
    (by decide) (by decide)

/-! ### Upload/retrieve round trip (C9) -/

/-- Every Unicode scalar value is below 0x110000. -/
theorem char_toNat_lt (c : Char) : c.toNat < 1114112 := by
  show c.val.toNat < 1114112
  rcases c.valid with h | ⟨_, h2⟩
  · have h1 : c.val.toNat < (55296 : UInt32).toNat := h
    have h3 : (55296 : UInt32).toNat = 55296 := rfl
    omega
  · have h1 : c.val.toNat < (1114112 : UInt32).toNat := h2
    have h3 : (1114112 : UInt32).toNat = 1114112 := rfl
    omega

/-- Decoding inverts the per-character encoding, prefix by prefix. -/
theorem utf8Decode_encodeChar (c : Char) (rest : List Nat) :
    utf8Decode (utf8EncodeChar c ++ rest) =
      (utf8Decode rest).map (fun cps => c.toNat :: cps) := by
  have hv : c.toNat < 1114112 := char_toNat_lt c
  simp only [utf8EncodeChar]
  by_cases h1 : c.toNat < 128
  · rw [if_pos h1]
    show utf8Decode (c.toNat :: rest) = _
    simp only [utf8Decode]
    rw [if_pos h1]
  · rw [if_neg h1]
    by_cases h2 : c.toNat < 2048
    · rw [if_pos h2]
      show utf8Decode ((192 + c.toNat / 64) :: (128 + c.toNat % 64) :: rest) = _
      simp only [utf8Decode]
      have ha : ¬ (192 + c.toNat / 64 < 128) := by omega
      have hb : ¬ (192 + c.toNat / 64 < 192) := by omega
      have hc2 : 192 + c.toNat / 64 < 224 := by omega
      rw [if_neg ha, if_neg hb, if_pos hc2]
      simp only [utf8DecodeTwo]
      have he : (192 + c.toNat / 64 - 192) * 64 + (128 + c.toNat % 64 - 128) =
          c.toNat := by omega
      rw [he]
    · rw [if_neg h2]
      by_cases h3 : c.toNat < 65536
      · rw [if_pos h3]
        show utf8Decode ((224 + c.toNat / 4096) :: (128 + c.toNat / 64 % 64) ::
          (128 + c.toNat % 64) :: rest) = _
        simp only [utf8Decode]
        have ha : ¬ (224 + c.toNat / 4096 < 128) := by omega
        have hb : ¬ (224 + c.toNat / 4096 < 192) := by omega
        have hc2 : ¬ (224 + c.toNat / 4096 < 224) := by omega
        have hd : 224 + c.toNat / 4096 < 240 := by omega
        rw [if_neg ha, if_neg hb, if_neg hc2, if_pos hd]
        simp only [utf8DecodeThree]
        have he : (224 + c.toNat / 4096 - 224) * 4096 +
            (128 + c.toNat / 64 % 64 - 128) * 64 + (128 + c.toNat % 64 - 128) =
            c.toNat := by omega
        rw [he]
      · rw [if_neg h3]
        show utf8Decode ((240 + c.toNat / 262144) :: (128 + c.toNat / 4096 % 64) ::
          (128 + c.toNat / 64 % 64) :: (128 + c.toNat % 64) :: rest) = _
        simp only [utf8Decode]
        have ha : ¬ (240 + c.toNat / 262144 < 128) := by omega
        have hb : ¬ (240 + c.toNat / 262144 < 192) := by omega
        have hc2 : ¬ (240 + c.toNat / 262144 < 224) := by omega
        have hd : ¬ (240 + c.toNat / 262144 < 240) := by omega
        have hf : 240 + c.toNat / 262144 < 248 := by omega
        rw [if_neg ha, if_neg hb, if_neg hc2, if_neg hd, if_pos hf]
        simp only [utf8DecodeFour]
        have he : (240 + c.toNat / 262144 - 240) * 262144 +
            (128 + c.toNat / 4096 % 64 - 128) * 4096 +
            (128 + c.toNat / 64 % 64 - 128) * 64 + (128 + c.toNat % 64 - 128) =
            c.toNat := by omega
        rw [he]

/-- Decoding inverts the encoding of a character list. -/
theorem utf8Decode_encode (l : List Char) :
    utf8Decode ((l.map utf8EncodeChar).flatten) = some (l.map Char.toNat) := by
  induction l with
  | nil => simp [utf8Decode]
  | cons c t ih =>
    rw [List.map_cons, List.flatten_cons, utf8Decode_encodeChar, ih]
    rfl

/-- The text decoder inverts the text encoder on every string. -/
theorem utf8Encode_roundtrip (s : String) :
    utf8DecodeString (utf8Encode s) = some s := by
  unfold utf8DecodeString utf8Encode
  rw [utf8Decode_encode, Option.map_some', List.map_map]
  have hco : Char.ofNat ∘ Char.toNat = id := funext (fun c => Char.ofNat_toNat c)
  rw [hco, List.map_id]
  rfl

/-- C9: retrieving the identifier produced by uploading a string returns the
string unchanged, for every content store that hands back, for that
identifier, chunks reassembling to the uploaded bytes (the round-trip law of
the external Helia store); the auto-pin fan-out inside the upload cannot
affect the returned identifier. -/
theorem getFromIPFS_uploadToIPFS_roundtrip (store : ContentStore)
    (penv : PinataEnv) (kenv : KuboEnv) (henv : HeliaPinEnv) (data : String)
    (chunks : List (List Nat))
    (hcat : store.cat (store.addBytes (utf8Encode data)) = some chunks)
    (hjoin : concatChunks chunks = utf8Encode data) :
    getFromIPFS store (uploadToIPFS store penv kenv henv data true) =
      Except.ok data := by
  have hup : uploadToIPFS store penv kenv henv data true =
      store.addBytes (utf8Encode data) := rfl
  rw [hup]
  simp only [getFromIPFS, hcat, hjoin, utf8Encode_roundtrip]

/-- A one-identifier content store returning the encoded bytes of "hi" in a
single chunk. -/
def roundtripStore : ContentStore :=
  ⟨fun _ => "QmA", fun _ => some [utf8Encode "hi"]⟩

/-- Witness for C9 at a concrete store and payload. -/
theorem getFromIPFS_uploadToIPFS_roundtrip_witness :
    getFromIPFS roundtripStore
        (uploadToIPFS roundtripStore pinataEnvUnconfigured kuboEnvDown heliaEnvOk
          "hi" true) =
      Except.ok "hi" :=
  getFromIPFS_uploadToIPFS_roundtrip roundtripStore pinataEnvUnconfigured
    kuboEnvDown heliaEnvOk "hi" [utf8Encode "hi"] rfl rfl

end DaoIpfs
